import Mathlib

/-!
Verification of the vectorized backtesting engine
(`src/analytics/vectorized_backtest.py`, class `VectorizedBacktester`).

The engine is embedded shallowly:
* a price table is its `close` column, a `List ℝ`;
* the signal series is a `List ℝ` (the source performs no validation of
  signal values, so the type is not restricted to {-1, 0, 1});
* the optional datetime index is `Option (List ℚ)`, timestamps measured in
  minutes (`none` models a non-`DatetimeIndex` frame);
* a per-bar derived column is a function `ℕ → Option ℝ`, where `none`
  models a float NaN / undefined entry (the leading entries produced by
  `shift`/`diff`, and entries derived from non-positive closes, which the
  design treats as undefined);
* pandas reductions (`cumsum`, `cummax`, `min`, `mean`, `std`, `median`)
  are modelled with their skip-NaN semantics, and `std` with its sample
  (ddof = 1) semantics, returning `none` on fewer than two observations.

Floats are idealized as real numbers; the `f"..."` output formatting of the
source is dropped and metric values are kept as raw `Option ℝ` numerics,
while the metric *keys* are the exact strings of the source dictionary.
-/

namespace Backtest

/-- Configuration captured by `VectorizedBacktester.__init__`:
`initial_capital`, `commission_per_share`, `slippage_bps` with the
source's default values. -/
structure Config where
  initial_capital : ℝ := 100000
  commission : ℝ := 0.0035
  slippage_bps : ℝ := 1

/-- `self.slippage_pct = slippage_bps / 10000.0`. -/
noncomputable def Config.slippage_pct (cfg : Config) : ℝ := cfg.slippage_bps / 10000

/-- `data['log_ret'] = np.log(data['close'] / data['close'].shift(1))`.
Bar 0 is NaN (`shift`), and a non-positive close makes the entry
undefined (the design's reading of `np.log` on a non-positive ratio). -/
noncomputable def log_ret (closes : List ℝ) (t : ℕ) : Option ℝ :=
  if t = 0 then none else
    match closes.get? (t - 1), closes.get? t with
    | some p, some c => if 0 < p ∧ 0 < c then some (Real.log (c / p)) else none
    | _, _ => none

/-- `data['signal'].shift(1)` evaluated at bar `t`: NaN at bar 0. -/
def sig_prev (sig : List ℝ) (t : ℕ) : Option ℝ :=
  if t = 0 then none else sig.get? (t - 1)

/-- `data['strat_ret'] = data['signal'].shift(1) * data['log_ret']`.
NaN whenever either factor is NaN. -/
noncomputable def strat_ret (closes sig : List ℝ) (t : ℕ) : Option ℝ :=
  match sig_prev sig t, log_ret closes t with
  | some s, some r => some (s * r)
  | _, _ => none

/-- `data['trades'] = data['signal'].diff().abs().fillna(0)`: the
turnover column; `fillna(0)` turns every NaN difference into `0`. -/
noncomputable def trades (sig : List ℝ) (t : ℕ) : ℝ :=
  if t = 0 then 0 else
    match sig.get? t, sig.get? (t - 1) with
    | some a, some b => |a - b|
    | _, _ => 0

/-- `data['cost'] = data['trades'] * ((commission / close) + slippage_pct)`. -/
noncomputable def cost (cfg : Config) (closes sig : List ℝ) (t : ℕ) : Option ℝ :=
  match closes.get? t with
  | some c => some (trades sig t * (cfg.commission / c + cfg.slippage_pct))
  | none => none

/-- `data['net_ret'] = data['strat_ret'] - data['cost']`. -/
noncomputable def net_ret (cfg : Config) (closes sig : List ℝ) (t : ℕ) : Option ℝ :=
  match strat_ret closes sig t, cost cfg closes sig t with
  | some s, some c => some (s - c)
  | _, _ => none

/-- Sum of the defined `net_ret` entries over bars `0 .. k-1`
(the skip-NaN running total behind `cumsum`). -/
noncomputable def sum_net (cfg : Config) (closes sig : List ℝ) : ℕ → ℝ
  | 0 => 0
  | k + 1 => sum_net cfg closes sig k + (net_ret cfg closes sig k).getD 0

/-- `data['net_ret'].cumsum()` at bar `t`: NaN where the entry is NaN,
otherwise the skip-NaN running total including bar `t`. -/
noncomputable def cum_net (cfg : Config) (closes sig : List ℝ) (t : ℕ) : Option ℝ :=
  match net_ret cfg closes sig t with
  | some _ => some (sum_net cfg closes sig (t + 1))
  | none => none

/-- `data['equity_curve'] = initial_capital * np.exp(data['net_ret'].cumsum())`. -/
noncomputable def equity_curve (cfg : Config) (closes sig : List ℝ) (t : ℕ) : Option ℝ :=
  (cum_net cfg closes sig t).map (fun s => cfg.initial_capital * Real.exp s)

/-- Skip-NaN running maximum of the defined entries of `e` over `0 .. t`. -/
noncomputable def run_max (e : ℕ → Option ℝ) : ℕ → Option ℝ
  | 0 => e 0
  | t + 1 =>
    match run_max e t, e (t + 1) with
    | none, o => o
    | some m, none => some m
    | some m, some x => some (max m x)

/-- `data['equity_curve'].cummax()` at bar `t`: NaN where the input is
NaN, otherwise the running maximum of the defined entries so far. -/
noncomputable def roll_max (e : ℕ → Option ℝ) (t : ℕ) : Option ℝ :=
  match e t with
  | none => none
  | some _ => run_max e t

/-- `drawdown = (equity_curve - roll_max) / roll_max`. -/
noncomputable def drawdown (cfg : Config) (closes sig : List ℝ) (t : ℕ) : Option ℝ :=
  match equity_curve cfg closes sig t,
        roll_max (equity_curve cfg closes sig) t with
  | some x, some m => some ((x - m) / m)
  | _, _ => none

/-- Skip-NaN running minimum of the defined entries of `d` over `0 .. t`. -/
noncomputable def min_defined (d : ℕ → Option ℝ) : ℕ → Option ℝ
  | 0 => d 0
  | t + 1 =>
    match min_defined d t, d (t + 1) with
    | none, o => o
    | some m, none => some m
    | some m, some x => some (min m x)

/-- `max_dd = drawdown.min()`: skip-NaN minimum over the whole column;
NaN on an empty frame or an all-NaN column. -/
noncomputable def max_dd (cfg : Config) (closes sig : List ℝ) : Option ℝ :=
  if closes.length = 0 then none
  else min_defined (drawdown cfg closes sig) (closes.length - 1)

/-- `clean_ret = data['net_ret'].dropna()`: the defined net returns in
bar order. -/
noncomputable def clean_ret (cfg : Config) (closes sig : List ℝ) : List ℝ :=
  (List.range closes.length).filterMap (net_ret cfg closes sig)

/-- pandas `Series.mean` on an already-clean list. -/
noncomputable def series_mean (xs : List ℝ) : ℝ := xs.sum / xs.length

/-- pandas `Series.std` (sample standard deviation, ddof = 1): NaN on
fewer than two observations. -/
noncomputable def series_std (xs : List ℝ) : Option ℝ :=
  if xs.length < 2 then none
  else some (Real.sqrt ((xs.map (fun x => (x - series_mean xs) ^ 2)).sum /
    ((xs.length : ℝ) - 1)))

/-- Insert into a sorted list (ascending). -/
def insert_sorted (x : ℚ) : List ℚ → List ℚ
  | [] => [x]
  | y :: ys => if x ≤ y then x :: y :: ys else y :: insert_sorted x ys

/-- Insertion sort, ascending. -/
def sort_q (l : List ℚ) : List ℚ := l.foldr insert_sorted []

/-- pandas `Series.median`: NaN on an empty series; the middle element of
the sorted values for odd length, the mean of the two middle elements for
even length. -/
def median_q (l : List ℚ) : Option ℚ :=
  if l.length = 0 then none
  else
    if l.length % 2 = 1 then some ((sort_q l).getD (l.length / 2) 0)
    else some (((sort_q l).getD (l.length / 2 - 1) 0 +
      (sort_q l).getD (l.length / 2) 0) / 2)

/-- `data.index.to_series().diff().dropna()`: consecutive timestamp
spacings. -/
def diffs_q (ts : List ℚ) : List ℚ :=
  (ts.zip ts.tail).map (fun p => p.2 - p.1)

/-- The annualization-factor inference of `calculate_metrics`: on a
datetime index, classify the median spacing of consecutive timestamps
(minutes) against the 5-minute and 60-minute breakpoints; default to 252
without a datetime index, and also when the median is NaN (fewer than two
timestamps), since a NaN comparison is falsy. -/
def ann_factor (idx : Option (List ℚ)) : ℕ :=
  match idx with
  | none => 252
  | some ts =>
    match median_q (diffs_q ts) with
    | none => 252
    | some m => if m < 5 then 252 * 390 else if m < 60 then 252 * 13 else 252

/-- `total_ret = (equity_curve.iloc[-1] / initial_capital) - 1`. -/
noncomputable def total_return (cfg : Config) (closes sig : List ℝ) : Option ℝ :=
  (equity_curve cfg closes sig (closes.length - 1)).map
    (fun e => e / cfg.initial_capital - 1)

/-- `sharpe = (mean_ret / std_ret) * np.sqrt(ann_factor) if std_ret > 0 else 0`;
a NaN standard deviation fails the `> 0` test, giving the `0` sentinel. -/
noncomputable def sharpe_ratio (cfg : Config) (closes sig : List ℝ)
    (idx : Option (List ℚ)) : ℝ :=
  match series_std (clean_ret cfg closes sig) with
  | some s =>
    if 0 < s then
      series_mean (clean_ret cfg closes sig) / s * Real.sqrt (ann_factor idx)
    else 0
  | none => 0

/-- `downside_ret = clean_ret[clean_ret < 0]`. -/
noncomputable def downside_ret (cfg : Config) (closes sig : List ℝ) : List ℝ :=
  (clean_ret cfg closes sig).filter (fun x => decide (x < 0))

/-- `sortino = (mean_ret / std_down) * np.sqrt(ann_factor) if std_down > 0 else 0`. -/
noncomputable def sortino_ratio (cfg : Config) (closes sig : List ℝ)
    (idx : Option (List ℚ)) : ℝ :=
  match series_std (downside_ret cfg closes sig) with
  | some s =>
    if 0 < s then
      series_mean (clean_ret cfg closes sig) / s * Real.sqrt (ann_factor idx)
    else 0
  | none => 0

/-- `win_rate = (clean_ret > 0).mean()`. -/
noncomputable def win_rate_bars (cfg : Config) (closes sig : List ℝ) : ℝ :=
  (((clean_ret cfg closes sig).filter (fun x => decide (0 < x))).length : ℝ) /
    ((clean_ret cfg closes sig).length : ℝ)

/-- `VectorizedBacktester.calculate_metrics`: the returned dictionary,
keys exactly as in the source, values as raw numerics (`none` = NaN).
Returns the empty dictionary when no defined net return remains. -/
noncomputable def calculate_metrics (cfg : Config) (closes sig : List ℝ)
    (idx : Option (List ℚ)) : List (String × Option ℝ) :=
  if (clean_ret cfg closes sig).length = 0 then []
  else
    [("Total Return", total_return cfg closes sig),
     ("Sharpe Ratio", some (sharpe_ratio cfg closes sig idx)),
     ("Sortino Ratio", some (sortino_ratio cfg closes sig idx)),
     ("Max Drawdown", max_dd cfg closes sig),
     ("Win Rate (Bars)", some (win_rate_bars cfg closes sig)),
     ("Equity Final", equity_curve cfg closes sig (closes.length - 1))]

/-- `VectorizedBacktester.run`: builds the derived columns (the functions
above) and reduces them with `calculate_metrics`. -/
noncomputable def run (cfg : Config) (closes sig : List ℝ)
    (idx : Option (List ℚ)) : List (String × Option ℝ) :=
  calculate_metrics cfg closes sig idx

/-! ### Basic evaluation lemmas -/

theorem sig_prev_zero (sig : List ℝ) : sig_prev sig 0 = none := rfl

theorem sig_prev_of_pos (sig : List ℝ) {t : ℕ} (ht : t ≠ 0) :
    sig_prev sig t = sig.get? (t - 1) := by
  simp [sig_prev, ht]

theorem strat_ret_zero (closes sig : List ℝ) : strat_ret closes sig 0 = none := rfl

theorem strat_ret_some {closes sig : List ℝ} {t : ℕ} {s r : ℝ} (ht : t ≠ 0)
    (hs : sig.get? (t - 1) = some s) (hr : log_ret closes t = some r) :
    strat_ret closes sig t = some (s * r) := by
  unfold strat_ret
  rw [sig_prev_of_pos sig ht, hs, hr]

theorem log_ret_some {closes : List ℝ} {t : ℕ} {p c : ℝ} (ht : t ≠ 0)
    (hp : closes.get? (t - 1) = some p) (hc : closes.get? t = some c)
    (hp0 : 0 < p) (hc0 : 0 < c) :
    log_ret closes t = some (Real.log (c / p)) := by
  unfold log_ret
  rw [if_neg ht, hp, hc]
  exact if_pos ⟨hp0, hc0⟩

theorem cost_some {closes : List ℝ} {t : ℕ} {c : ℝ} (cfg : Config) (sig : List ℝ)
    (hc : closes.get? t = some c) :
    cost cfg closes sig t =
      some (trades sig t * (cfg.commission / c + cfg.slippage_pct)) := by
  unfold cost
  rw [hc]

theorem net_ret_eq_some {cfg : Config} {closes sig : List ℝ} {t : ℕ} {s c : ℝ}
    (hs : strat_ret closes sig t = some s) (hc : cost cfg closes sig t = some c) :
    net_ret cfg closes sig t = some (s - c) := by
  unfold net_ret
  rw [hs, hc]

theorem net_ret_zero (cfg : Config) (closes sig : List ℝ) :
    net_ret cfg closes sig 0 = none := by
  unfold net_ret
  rw [strat_ret_zero]

/-- The master formula: at any bar `t ≥ 1` inside both series, with
positive closes around it, the net return is defined and equals
`signal[t-1] * ln(close[t]/close[t-1]) - trades[t] * (commission/close[t] + slippage_pct)`. -/
theorem net_ret_formula {cfg : Config} {closes sig : List ℝ} {t : ℕ} {s p c : ℝ}
    (ht : t ≠ 0) (hs : sig.get? (t - 1) = some s)
    (hp : closes.get? (t - 1) = some p) (hc : closes.get? t = some c)
    (hp0 : 0 < p) (hc0 : 0 < c) :
    net_ret cfg closes sig t =
      some (s * Real.log (c / p) -
        trades sig t * (cfg.commission / c + cfg.slippage_pct)) :=
  net_ret_eq_some (strat_ret_some ht hs (log_ret_some ht hp hc hp0 hc0))
    (cost_some cfg sig hc)

theorem get?_pos {closes : List ℝ} (hpos : ∀ x ∈ closes, 0 < x) {t : ℕ} {c : ℝ}
    (h : closes.get? t = some c) : 0 < c :=
  hpos c (List.get?_mem h)

/-- Definedness: with positive closes and the signal long enough, every
bar `1 ≤ t < n` has a defined net return. -/
theorem net_ret_isSome {cfg : Config} {closes sig : List ℝ} {t : ℕ}
    (hpos : ∀ x ∈ closes, 0 < x) (ht : t ≠ 0) (htn : t < closes.length)
    (hsig : t - 1 < sig.length) :
    ∃ v, net_ret cfg closes sig t = some v := by
  have htn' : t - 1 < closes.length := lt_of_le_of_lt (Nat.pred_le t) htn
  have hp := List.get?_eq_get htn'
  have hc := List.get?_eq_get htn
  have hs := List.get?_eq_get hsig
  exact ⟨_, net_ret_formula ht hs hp hc (get?_pos hpos hp) (get?_pos hpos hc)⟩

theorem run_def (cfg : Config) (closes sig : List ℝ) (idx : Option (List ℚ)) :
    run cfg closes sig idx = calculate_metrics cfg closes sig idx := rfl

theorem metrics_nil_of_clean_nil {cfg : Config} {closes sig : List ℝ}
    (idx : Option (List ℚ)) (h : clean_ret cfg closes sig = []) :
    calculate_metrics cfg closes sig idx = [] := by
  simp [calculate_metrics, h]

theorem calculate_metrics_eq_of_ne_nil {cfg : Config} {closes sig : List ℝ}
    {idx : Option (List ℚ)} (h : clean_ret cfg closes sig ≠ []) :
    calculate_metrics cfg closes sig idx =
      [("Total Return", total_return cfg closes sig),
       ("Sharpe Ratio", some (sharpe_ratio cfg closes sig idx)),
       ("Sortino Ratio", some (sortino_ratio cfg closes sig idx)),
       ("Max Drawdown", max_dd cfg closes sig),
       ("Win Rate (Bars)", some (win_rate_bars cfg closes sig)),
       ("Equity Final", equity_curve cfg closes sig (closes.length - 1))] := by
  rw [calculate_metrics, if_neg (by simpa [List.length_eq_zero] using h)]

theorem calculate_metrics_keys {cfg : Config} {closes sig : List ℝ}
    {idx : Option (List ℚ)} (h : clean_ret cfg closes sig ≠ []) :
    (calculate_metrics cfg closes sig idx).map Prod.fst =
      ["Total Return", "Sharpe Ratio", "Sortino Ratio", "Max Drawdown",
       "Win Rate (Bars)", "Equity Final"] := by
  rw [calculate_metrics_eq_of_ne_nil h]
  rfl

theorem clean_ret_ne_nil {cfg : Config} {closes sig : List ℝ} {t : ℕ} {v : ℝ}
    (ht : t < closes.length) (h : net_ret cfg closes sig t = some v) :
    clean_ret cfg closes sig ≠ [] := by
  intro hnil
  have hall := List.filterMap_eq_nil_iff.mp hnil t (List.mem_range.mpr ht)
  rw [h] at hall
  exact Option.noConfusion hall

theorem run_ne_nil {cfg : Config} {closes sig : List ℝ} (idx : Option (List ℚ))
    (h : clean_ret cfg closes sig ≠ []) :
    run cfg closes sig idx ≠ [] := by
  rw [run_def, calculate_metrics_eq_of_ne_nil h]
  intro hfalse
  exact List.noConfusion hfalse

/-! ### Equity-curve lemmas -/

theorem equity_zero_none (cfg : Config) (closes sig : List ℝ) :
    equity_curve cfg closes sig 0 = none := by
  unfold equity_curve cum_net
  rw [net_ret_zero]
  rfl

theorem equity_of_net_some {cfg : Config} {closes sig : List ℝ} {t : ℕ} {v : ℝ}
    (h : net_ret cfg closes sig t = some v) :
    equity_curve cfg closes sig t =
      some (cfg.initial_capital * Real.exp (sum_net cfg closes sig (t + 1))) := by
  unfold equity_curve cum_net
  rw [h]
  rfl

theorem equity_pos {cfg : Config} {closes sig : List ℝ} {t : ℕ} {e : ℝ}
    (hC : 0 < cfg.initial_capital) (h : equity_curve cfg closes sig t = some e) :
    0 < e := by
  unfold equity_curve cum_net at h
  cases hn : net_ret cfg closes sig t with
  | none => rw [hn] at h; exact Option.noConfusion h
  | some v =>
    rw [hn] at h
    have he : cfg.initial_capital * Real.exp (sum_net cfg closes sig (t + 1)) = e :=
      Option.some_inj.mp h
    rw [← he]
    exact mul_pos hC (Real.exp_pos _)

/-! ### Recursor equations and generic reduction lemmas -/

theorem run_max_zero (e : ℕ → Option ℝ) : run_max e 0 = e 0 := rfl

theorem run_max_succ (e : ℕ → Option ℝ) (t : ℕ) :
    run_max e (t + 1) =
      match run_max e t, e (t + 1) with
      | none, o => o
      | some m, none => some m
      | some m, some x => some (max m x) := rfl

theorem min_defined_zero (d : ℕ → Option ℝ) : min_defined d 0 = d 0 := rfl

theorem min_defined_succ (d : ℕ → Option ℝ) (t : ℕ) :
    min_defined d (t + 1) =
      match min_defined d t, d (t + 1) with
      | none, o => o
      | some m, none => some m
      | some m, some x => some (min m x) := rfl

theorem net_ret_none_of_len {cfg : Config} {closes sig : List ℝ} {k : ℕ}
    (h : closes.length ≤ k) : net_ret cfg closes sig k = none := by
  have hc : cost cfg closes sig k = none := by
    unfold cost
    rw [List.get?_eq_none.mpr h]
  unfold net_ret
  rw [hc]
  cases strat_ret closes sig k <;> rfl

theorem drawdown_zero_none (cfg : Config) (closes sig : List ℝ) :
    drawdown cfg closes sig 0 = none := by
  unfold drawdown
  rw [equity_zero_none]

/-! ### Flat (all-zero) signal lemmas -/

theorem replicate_get?_eq {n i : ℕ} (h : i < n) :
    (List.replicate n (0 : ℝ)).get? i = some 0 := by
  have hl : i < (List.replicate n (0 : ℝ)).length := by simpa using h
  rw [List.get?_eq_get hl, List.get_replicate]

theorem trades_flat (n t : ℕ) : trades (List.replicate n (0 : ℝ)) t = 0 := by
  unfold trades
  rcases eq_or_ne t 0 with h0 | h0
  · rw [if_pos h0]
  · rw [if_neg h0]
    by_cases htn : t < n
    · rw [replicate_get?_eq htn, replicate_get?_eq (show t - 1 < n by omega)]
      simp
    · rw [List.get?_eq_none.mpr (by simpa using not_lt.mp htn)]

theorem net_ret_flat {cfg : Config} {closes : List ℝ} (hpos : ∀ x ∈ closes, 0 < x)
    {t : ℕ} (ht : t ≠ 0) (htn : t < closes.length) :
    net_ret cfg closes (List.replicate closes.length (0 : ℝ)) t = some 0 := by
  have hp := List.get?_eq_get (show t - 1 < closes.length by omega)
  have hc := List.get?_eq_get htn
  have hs := replicate_get?_eq (show t - 1 < closes.length by omega)
  rw [net_ret_formula ht hs hp hc (get?_pos hpos hp) (get?_pos hpos hc),
    trades_flat]
  norm_num

theorem sum_net_flat {cfg : Config} {closes : List ℝ}
    (hpos : ∀ x ∈ closes, 0 < x) (k : ℕ) :
    sum_net cfg closes (List.replicate closes.length (0 : ℝ)) k = 0 := by
  induction k with
  | zero => rfl
  | succ k ih =>
    unfold sum_net
    rw [ih]
    rcases eq_or_ne k 0 with h0 | h0
    · subst h0
      rw [net_ret_zero]
      norm_num
    · by_cases hk : k < closes.length
      · rw [net_ret_flat hpos h0 hk]
        norm_num
      · rw [net_ret_none_of_len (by omega)]
        norm_num

theorem equity_flat {cfg : Config} {closes : List ℝ} (hpos : ∀ x ∈ closes, 0 < x)
    {t : ℕ} (ht : t ≠ 0) (htn : t < closes.length) :
    equity_curve cfg closes (List.replicate closes.length (0 : ℝ)) t =
      some cfg.initial_capital := by
  rw [equity_of_net_some (net_ret_flat hpos ht htn), sum_net_flat hpos]
  simp [Real.exp_zero]

theorem clean_ret_flat_zero {cfg : Config} {closes : List ℝ}
    (hpos : ∀ x ∈ closes, 0 < x) :
    ∀ x ∈ clean_ret cfg closes (List.replicate closes.length (0 : ℝ)), x = 0 := by
  intro x hx
  obtain ⟨a, ha, hfa⟩ := List.mem_filterMap.mp hx
  have han : a < closes.length := List.mem_range.mp ha
  rcases eq_or_ne a 0 with h0 | h0
  · subst h0
    rw [net_ret_zero] at hfa
    exact Option.noConfusion hfa
  · rw [net_ret_flat hpos h0 han] at hfa
    exact (Option.some_inj.mp hfa).symm

/-! ### Zero-variance sentinel lemmas -/

theorem series_mean_all_zero {xs : List ℝ} (h : ∀ x ∈ xs, x = 0) :
    series_mean xs = 0 := by
  unfold series_mean
  rw [List.sum_eq_zero h]
  simp

theorem series_std_all_zero {xs : List ℝ} (h : ∀ x ∈ xs, x = 0) :
    series_std xs = none ∨ series_std xs = some 0 := by
  unfold series_std
  by_cases hlen : xs.length < 2
  · left
    rw [if_pos hlen]
  · right
    rw [if_neg hlen]
    have hmap : (xs.map fun x => (x - series_mean xs) ^ 2).sum = 0 :=
      List.sum_eq_zero (by
        intro y hy
        obtain ⟨x, hx, rfl⟩ := List.mem_map.mp hy
        rw [h x hx, series_mean_all_zero h]
        ring)
    rw [hmap]
    simp

theorem sharpe_ratio_all_zero {cfg : Config} {closes sig : List ℝ}
    (idx : Option (List ℚ)) (h : ∀ x ∈ clean_ret cfg closes sig, x = 0) :
    sharpe_ratio cfg closes sig idx = 0 := by
  unfold sharpe_ratio
  rcases series_std_all_zero h with hs | hs <;> rw [hs]
  simp

theorem downside_ret_nil_of_all_zero {cfg : Config} {closes sig : List ℝ}
    (h : ∀ x ∈ clean_ret cfg closes sig, x = 0) :
    downside_ret cfg closes sig = [] := by
  unfold downside_ret
  rw [List.filter_eq_nil]
  intro a ha
  rw [h a ha]
  simp

theorem sortino_ratio_zero_of_no_downside {cfg : Config} {closes sig : List ℝ}
    (idx : Option (List ℚ)) (h : downside_ret cfg closes sig = []) :
    sortino_ratio cfg closes sig idx = 0 := by
  unfold sortino_ratio
  rw [h]
  rfl

/-! ### Flat-signal drawdown lemmas -/

theorem run_max_flat {cfg : Config} {closes : List ℝ}
    (hpos : ∀ x ∈ closes, 0 < x) :
    ∀ t, t ≠ 0 → t < closes.length →
      run_max (equity_curve cfg closes (List.replicate closes.length (0 : ℝ))) t =
        some cfg.initial_capital := by
  intro t
  induction t with
  | zero => intro h; exact absurd rfl h
  | succ k ih =>
    intro _ hkn
    rcases eq_or_ne k 0 with h0 | h0
    · subst h0
      rw [run_max_succ, run_max_zero, equity_zero_none,
        equity_flat hpos (show (0 : ℕ) + 1 ≠ 0 by omega)
          (show 0 + 1 < closes.length by omega)]
    · rw [run_max_succ, ih h0 (by omega),
        equity_flat hpos (Nat.succ_ne_zero k) hkn]
      simp

theorem drawdown_flat {cfg : Config} {closes : List ℝ}
    (hpos : ∀ x ∈ closes, 0 < x) {t : ℕ} (ht : t ≠ 0) (htn : t < closes.length) :
    drawdown cfg closes (List.replicate closes.length (0 : ℝ)) t = some 0 := by
  unfold drawdown roll_max
  rw [equity_flat hpos ht htn, run_max_flat hpos t ht htn]
  simp

theorem min_defined_drawdown_flat {cfg : Config} {closes : List ℝ}
    (hpos : ∀ x ∈ closes, 0 < x) :
    ∀ t, t ≠ 0 → t < closes.length →
      min_defined (drawdown cfg closes (List.replicate closes.length (0 : ℝ))) t =
        some 0 := by
  intro t
  induction t with
  | zero => intro h; exact absurd rfl h
  | succ k ih =>
    intro _ hkn
    rcases eq_or_ne k 0 with h0 | h0
    · subst h0
      rw [min_defined_succ, min_defined_zero, drawdown_zero_none,
        drawdown_flat hpos (show (0 : ℕ) + 1 ≠ 0 by omega)
          (show 0 + 1 < closes.length by omega)]
    · rw [min_defined_succ, ih h0 (by omega),
        drawdown_flat hpos (Nat.succ_ne_zero k) hkn]
      simp

theorem max_dd_flat {cfg : Config} {closes : List ℝ}
    (hpos : ∀ x ∈ closes, 0 < x) (hn : 2 ≤ closes.length) :
    max_dd cfg closes (List.replicate closes.length (0 : ℝ)) = some 0 := by
  unfold max_dd
  rw [if_neg (by omega)]
  exact min_defined_drawdown_flat hpos (closes.length - 1) (by omega) (by omega)

/-! ### Cost-monotonicity lemmas -/

theorem trades_pos_elim {sig : List ℝ} {t : ℕ} (h : 0 < trades sig t) :
    t ≠ 0 ∧ ∃ a b, sig.get? t = some a ∧ sig.get? (t - 1) = some b := by
  unfold trades at h
  rcases eq_or_ne t 0 with h0 | h0
  · rw [if_pos h0] at h
    exact absurd h (lt_irrefl 0)
  · rw [if_neg h0] at h
    refine ⟨h0, ?_⟩
    rcases h1 : sig.get? t with _ | a <;> rcases h2 : sig.get? (t - 1) with _ | b <;>
      rw [h1, h2] at h
    · exact absurd h (lt_irrefl 0)
    · exact absurd h (lt_irrefl 0)
    · exact absurd h (lt_irrefl 0)
    · exact ⟨a, b, rfl, rfl⟩

theorem slippage_pct_mono {c₁ c₂ : Config} (h : c₁.slippage_bps ≤ c₂.slippage_bps) :
    c₁.slippage_pct ≤ c₂.slippage_pct := by
  unfold Config.slippage_pct
  exact (div_le_div_right (by norm_num)).mpr h

theorem net_ret_config_eq_of_no_trade (c₁ c₂ : Config) {sig : List ℝ} {t : ℕ}
    (closes : List ℝ) (htr : trades sig t = 0) :
    net_ret c₂ closes sig t = net_ret c₁ closes sig t := by
  unfold net_ret cost
  rcases hc : closes.get? t with _ | c
  · rfl
  · rw [htr]
    cases strat_ret closes sig t <;> simp

theorem clean_ret_flat_ne_nil {cfg : Config} {closes : List ℝ}
    (hpos : ∀ x ∈ closes, 0 < x) (hn : 2 ≤ closes.length) :
    clean_ret cfg closes (List.replicate closes.length (0 : ℝ)) ≠ [] :=
  clean_ret_ne_nil (show 1 < closes.length by omega)
    (net_ret_flat hpos one_ne_zero (by omega))

theorem total_return_flat {cfg : Config} {closes : List ℝ}
    (hC : 0 < cfg.initial_capital) (hpos : ∀ x ∈ closes, 0 < x)
    (hn : 2 ≤ closes.length) :
    total_return cfg closes (List.replicate closes.length (0 : ℝ)) = some 0 := by
  unfold total_return
  rw [equity_flat hpos (show closes.length - 1 ≠ 0 by omega) (by omega)]
  simp [div_self (ne_of_gt hC)]

theorem win_rate_flat {cfg : Config} {closes sig : List ℝ}
    (h : ∀ x ∈ clean_ret cfg closes sig, x = 0) :
    win_rate_bars cfg closes sig = 0 := by
  unfold win_rate_bars
  have hf : (clean_ret cfg closes sig).filter (fun x => decide (0 < x)) = [] := by
    rw [List.filter_eq_nil]
    intro a ha
    rw [h a ha]
    simp
  rw [hf]
  simp

/-! ### Drawdown-bound lemmas -/

theorem run_max_le {e : ℕ → Option ℝ} {t : ℕ} {x : ℝ} (h : e t = some x) :
    ∃ m, run_max e t = some m ∧ x ≤ m := by
  induction t with
  | zero => exact ⟨x, by rw [run_max_zero, h], le_refl x⟩
  | succ k ih =>
    clear ih
    rcases hk : run_max e k with _ | m
    · exact ⟨x, by rw [run_max_succ, hk, h], le_refl x⟩
    · exact ⟨max m x, by rw [run_max_succ, hk, h], le_max_right m x⟩

theorem run_max_pos {e : ℕ → Option ℝ} (hall : ∀ i x, e i = some x → 0 < x) :
    ∀ t m, run_max e t = some m → 0 < m := by
  intro t
  induction t with
  | zero =>
    intro m hm
    rw [run_max_zero] at hm
    exact hall 0 m hm
  | succ k ih =>
    intro m hm
    rw [run_max_succ] at hm
    rcases hk : run_max e k with _ | m' <;> rw [hk] at hm
    · exact hall (k + 1) m hm
    · rcases he : e (k + 1) with _ | x <;> rw [he] at hm
      · rw [← Option.some_inj.mp hm]
        exact ih m' hk
      · rw [← Option.some_inj.mp hm]
        exact lt_max_of_lt_left (ih m' hk)

theorem equity_all_pos {cfg : Config} {closes sig : List ℝ}
    (hC : 0 < cfg.initial_capital) :
    ∀ i x, equity_curve cfg closes sig i = some x → 0 < x :=
  fun _ _ hx => equity_pos hC hx

theorem roll_max_of_some {e : ℕ → Option ℝ} {t : ℕ} {x m : ℝ}
    (he : e t = some x) (hm : run_max e t = some m) :
    roll_max e t = some m := by
  unfold roll_max
  rw [he, hm]

theorem drawdown_isSome_of_net {cfg : Config} {closes sig : List ℝ} {t : ℕ} {v : ℝ}
    (h : net_ret cfg closes sig t = some v) :
    ∃ d, drawdown cfg closes sig t = some d := by
  have he := equity_of_net_some h
  obtain ⟨m, hm, _⟩ := run_max_le he
  have hd : drawdown cfg closes sig t =
      some ((cfg.initial_capital * Real.exp (sum_net cfg closes sig (t + 1)) - m) / m) := by
    unfold drawdown
    rw [he, roll_max_of_some he hm]
  exact ⟨_, hd⟩

theorem drawdown_bound {cfg : Config} {closes sig : List ℝ}
    (hC : 0 < cfg.initial_capital) {t : ℕ} {d : ℝ}
    (h : drawdown cfg closes sig t = some d) : -1 < d ∧ d ≤ 0 := by
  unfold drawdown at h
  rcases he : equity_curve cfg closes sig t with _ | x <;> rw [he] at h
  · rcases roll_max (equity_curve cfg closes sig) t with _ | m <;>
      exact Option.noConfusion h
  · obtain ⟨m, hm, hxm⟩ := run_max_le he
    rw [roll_max_of_some he hm] at h
    have hd : (x - m) / m = d := Option.some_inj.mp h
    have hx : 0 < x := equity_pos hC he
    have hmp : 0 < m := run_max_pos (equity_all_pos hC) t m hm
    constructor
    · have hq : 0 < x / m := div_pos hx hmp
      have : (x - m) / m = x / m - 1 := by
        rw [sub_div, div_self (ne_of_gt hmp)]
      rw [← hd, this]
      linarith
    · rw [← hd]
      exact div_nonpos_iff.mpr (Or.inr ⟨by linarith, le_of_lt hmp⟩)

theorem min_defined_pred {P : ℝ → Prop} {d : ℕ → Option ℝ}
    (hmin : ∀ a b, P a → P b → P (min a b))
    (hall : ∀ i x, d i = some x → P x) :
    ∀ t r, min_defined d t = some r → P r := by
  intro t
  induction t with
  | zero =>
    intro r hr
    rw [min_defined_zero] at hr
    exact hall 0 r hr
  | succ k ih =>
    intro r hr
    rw [min_defined_succ] at hr
    rcases hk : min_defined d k with _ | m <;> rw [hk] at hr
    · exact hall (k + 1) r hr
    · rcases he : d (k + 1) with _ | x <;> rw [he] at hr
      · rw [← Option.some_inj.mp hr]
        exact ih m hk
      · rw [← Option.some_inj.mp hr]
        exact hmin m x (ih m hk) (hall (k + 1) x he)

theorem min_defined_isSome {d : ℕ → Option ℝ} {i : ℕ} {x : ℝ}
    (h : d i = some x) : ∀ t, i ≤ t → ∃ r, min_defined d t = some r := by
  intro t
  induction t with
  | zero =>
    intro hi
    interval_cases i
    exact ⟨x, by rw [min_defined_zero, h]⟩
  | succ k ih =>
    intro hi
    rcases Nat.lt_or_ge i (k + 1) with hik | hik
    · obtain ⟨r, hr⟩ := ih (by omega)
      rcases he : d (k + 1) with _ | y
      · exact ⟨r, by rw [min_defined_succ, hr, he]⟩
      · exact ⟨min r y, by rw [min_defined_succ, hr, he]⟩
    · have : i = k + 1 := by omega
      subst this
      rcases hk : min_defined d k with _ | m
      · exact ⟨x, by rw [min_defined_succ, hk, h]⟩
      · exact ⟨min m x, by rw [min_defined_succ, hk, h]⟩

theorem clean_ret_ne_nil_elim {cfg : Config} {closes sig : List ℝ}
    (hne : clean_ret cfg closes sig ≠ []) :
    ∃ t, t < closes.length ∧ ∃ v, net_ret cfg closes sig t = some v := by
  by_contra hcon
  push_neg at hcon
  apply hne
  apply List.filterMap_eq_nil_iff.mpr
  intro a ha
  have han := List.mem_range.mp ha
  rcases hfa : net_ret cfg closes sig a with _ | v
  · rfl
  · exact absurd hfa (hcon a han v)

end Backtest

open Backtest

/-- C1. No lookahead: `strat_ret[u] = signal[u-1] * log_ret[u]`, and two
signal series that agree everywhere except at bar `t` produce the same
`strat_ret` at every bar other than `t + 1`. -/
theorem C1_no_lookahead (closes sig sig' : List ℝ) (t : ℕ)
    (hagree : ∀ i, i ≠ t → sig.get? i = sig'.get? i) :
    (∀ u s r, u ≠ 0 → sig.get? (u - 1) = some s → log_ret closes u = some r →
      strat_ret closes sig u = some (s * r)) ∧
    (∀ u, u ≠ t + 1 → strat_ret closes sig u = strat_ret closes sig' u) := by
  constructor
  · intro u s r hu hs hr
    exact strat_ret_some hu hs hr
  · intro u hu
    match u with
    | 0 => rfl
    | v + 1 =>
      have hvt : v + 1 - 1 ≠ t := by omega
      unfold strat_ret
      rw [sig_prev_of_pos sig (Nat.succ_ne_zero v),
        sig_prev_of_pos sig' (Nat.succ_ne_zero v), hagree _ hvt]

/-- C1 witness: concrete three-bar series, signals differing only at bar 1. -/
theorem C1_no_lookahead_witness :
    (∀ u s r, u ≠ 0 → ([1, 0, 1] : List ℝ).get? (u - 1) = some s →
      log_ret [100, 110, 121] u = some r →
      strat_ret [100, 110, 121] [1, 0, 1] u = some (s * r)) ∧
    (∀ u, u ≠ 2 → strat_ret [100, 110, 121] [1, 0, 1] u =
      strat_ret [100, 110, 121] [1, 1, 1] u) :=
  C1_no_lookahead [100, 110, 121] [1, 0, 1] [1, 1, 1] 1
    (fun i hi => by
      match i with
      | 0 => rfl
      | 1 => exact absurd rfl hi
      | 2 => rfl
      | n + 3 => rfl)

/-- Concrete fact shared by several proofs: the two-bar run
`closes = [100, 110]`, `sig = [1, 1]` has a defined net return at bar 1,
so its `clean_ret` is non-empty. -/
theorem clean_ne_ex1 : clean_ret {} [100, 110] [1, 1] ≠ [] := by
  have hpos : ∀ x ∈ ([100, 110] : List ℝ), 0 < x := by norm_num
  obtain ⟨v, hv⟩ :=
    @net_ret_isSome {} [100, 110] [1, 1] 1 hpos one_ne_zero (by norm_num) (by norm_num)
  exact clean_ret_ne_nil (by norm_num) hv

/-- C7. Degenerate case: when no defined net return remains after
dropping NaN bars, `calculate_metrics` returns the empty map. -/
theorem C7_degenerate_empty (cfg : Config) (closes sig : List ℝ)
    (idx : Option (List ℚ)) (h : clean_ret cfg closes sig = []) :
    calculate_metrics cfg closes sig idx = [] :=
  metrics_nil_of_clean_nil idx h

/-- C7 witness: a one-bar series has no defined net return and yields the
empty map. -/
theorem C7_degenerate_empty_witness :
    clean_ret {} [(100 : ℝ)] [(1 : ℝ)] = [] ∧
    calculate_metrics {} [(100 : ℝ)] [(1 : ℝ)] none = [] := by
  have h : clean_ret ({} : Config) [(100 : ℝ)] [(1 : ℝ)] = [] := by
    simp [clean_ret, net_ret_zero]
  exact ⟨h, C7_degenerate_empty {} [100] [1] none h⟩

/-- C2 is false on the code: on an input with a non-empty result the
dictionary keys are the title-case strings of the source
(`"Total Return"`, ...), not the snake_case names the spec lists
(`total_return` is absent). -/
theorem C2_counterexample :
    run {} [100, 110] [1, 1] none ≠ [] ∧
    (run {} [100, 110] [1, 1] none).map Prod.fst =
      ["Total Return", "Sharpe Ratio", "Sortino Ratio", "Max Drawdown",
       "Win Rate (Bars)", "Equity Final"] ∧
    "total_return" ∉ (run {} [100, 110] [1, 1] none).map Prod.fst := by
  have hkeys := @calculate_metrics_keys {} [100, 110] [1, 1] none clean_ne_ex1
  refine ⟨run_ne_nil none clean_ne_ex1, ?_, ?_⟩
  · rw [run_def]
    exact hkeys
  · rw [run_def, hkeys]
    decide

/-- C2 amended: whenever `run` produces a non-empty result, the map has
string keys exactly `"Total Return"`, `"Sharpe Ratio"`,
`"Sortino Ratio"`, `"Max Drawdown"`, `"Win Rate (Bars)"`,
`"Equity Final"` in that order (the spec's snake_case names do not
occur). -/
theorem C2_amended_keys (cfg : Config) (closes sig : List ℝ)
    (idx : Option (List ℚ)) (h : run cfg closes sig idx ≠ []) :
    (run cfg closes sig idx).map Prod.fst =
      ["Total Return", "Sharpe Ratio", "Sortino Ratio", "Max Drawdown",
       "Win Rate (Bars)", "Equity Final"] := by
  have hc : clean_ret cfg closes sig ≠ [] := by
    intro h0
    exact h (by rw [run_def]; exact metrics_nil_of_clean_nil idx h0)
  rw [run_def]
  exact calculate_metrics_keys hc

/-- C2 amended witness: the two-bar input produces a non-empty map with
exactly the title-case keys. -/
theorem C2_amended_keys_witness :
    run ({} : Config) [100, 110] [1, 1] none ≠ [] ∧
    (run ({} : Config) [100, 110] [1, 1] none).map Prod.fst =
      ["Total Return", "Sharpe Ratio", "Sortino Ratio", "Max Drawdown",
       "Win Rate (Bars)", "Equity Final"] :=
  ⟨run_ne_nil none clean_ne_ex1,
   C2_amended_keys {} [100, 110] [1, 1] none (run_ne_nil none clean_ne_ex1)⟩

/-- C3 is false on the code: `run` performs no boundary validation. With
the signal value 5 (outside {-1, 0, 1}) the computation proceeds, returns
a non-empty metrics map, and the out-of-range value flows straight into
the net return of bar 1 (`5 * ln(110/100)`). -/
theorem C3_counterexample :
    run {} [100, 110] [(5 : ℝ), 5] none ≠ [] ∧
    net_ret {} [100, 110] [(5 : ℝ), 5] 1 = some (5 * Real.log (110 / 100)) := by
  have hnet : net_ret ({} : Config) [100, 110] [(5 : ℝ), 5] 1 =
      some (5 * Real.log (110 / 100)) := by
    have h := @net_ret_formula {} [100, 110] [(5 : ℝ), 5] 1 5 100 110
      one_ne_zero rfl rfl rfl (by norm_num) (by norm_num)
    rw [h]
    norm_num [trades]
  exact ⟨run_ne_nil none (clean_ret_ne_nil (by norm_num) hnet), hnet⟩

/-- C3 amended: `run` performs no fail-fast validation at the simulator
boundary: for any signal series whatsoever (no {-1, 0, 1} restriction and
no length check) over a positive price series of at least two bars, the
vectorized computation proceeds and returns a non-empty metrics map. -/
theorem C3_amended_no_validation (cfg : Config) (closes sig : List ℝ)
    (idx : Option (List ℚ)) (hpos : ∀ x ∈ closes, 0 < x)
    (hn : 2 ≤ closes.length) (hs : sig ≠ []) :
    run cfg closes sig idx ≠ [] := by
  have h1 : (1 : ℕ) < closes.length := hn
  have hs1 : 1 - 1 < sig.length := by
    cases sig with
    | nil => exact absurd rfl hs
    | cons a l => simp
  obtain ⟨v, hv⟩ := @net_ret_isSome cfg closes sig 1 hpos one_ne_zero h1 hs1
  exact run_ne_nil idx (clean_ret_ne_nil h1 hv)

/-- C3 amended witness: out-of-range signal values still produce a
non-empty result. -/
theorem C3_amended_no_validation_witness :
    (∀ x ∈ ([100, 110] : List ℝ), 0 < x) ∧ 2 ≤ ([100, 110] : List ℝ).length ∧
    ([(5 : ℝ), 5] : List ℝ) ≠ [] ∧
    run ({} : Config) [100, 110] [(5 : ℝ), 5] none ≠ [] :=
  ⟨by norm_num, by norm_num, by simp,
   C3_amended_no_validation {} [100, 110] [5, 5] none (by norm_num) (by norm_num)
     (by simp)⟩



/-- C4 is false as stated ("equity[t] > 0 at every bar t"): bar 0's
equity is undefined (NaN), because `net_ret[0]` is NaN and `cumsum`
propagates it, so it is not a positive value. -/
theorem C4_counterexample :
    ¬ (∀ t, t < ([100, 110] : List ℝ).length →
        ∃ e, equity_curve {} [100, 110] [(0 : ℝ), 0] t = some e ∧ 0 < e) := by
  intro hall
  obtain ⟨e, he, _⟩ := hall 0 (by norm_num)
  rw [equity_zero_none] at he
  exact Option.noConfusion he

/-- C4 amended: with positive initial capital, positive closes and a
long-enough signal, `equity[t]` is defined and strictly positive at every
bar `t ≥ 1`; at bar 0 it is undefined (NaN), not a value. -/
theorem C4_amended_equity_positive (cfg : Config) (closes sig : List ℝ) (t : ℕ)
    (hC : 0 < cfg.initial_capital) (hpos : ∀ x ∈ closes, 0 < x)
    (ht : t ≠ 0) (htn : t < closes.length) (hsig : t - 1 < sig.length) :
    ∃ e, equity_curve cfg closes sig t = some e ∧ 0 < e := by
  obtain ⟨v, hv⟩ := @net_ret_isSome cfg closes sig t hpos ht htn hsig
  have he := equity_of_net_some hv
  exact ⟨_, he, equity_pos hC he⟩

/-- C4 amended witness: a concrete deeply-short signal still has positive
equity at bar 1. -/
theorem C4_amended_equity_positive_witness :
    0 < ({} : Config).initial_capital ∧
    (∀ x ∈ ([100, 110] : List ℝ), 0 < x) ∧
    (∃ e, equity_curve {} [100, 110] [(-1 : ℝ), -1] 1 = some e ∧ 0 < e) :=
  ⟨by show (0 : ℝ) < 100000; norm_num,
   by norm_num,
   C4_amended_equity_positive {} [100, 110] [(-1 : ℝ), -1] 1
     (by show (0 : ℝ) < 100000; norm_num) (by norm_num) one_ne_zero
     (by norm_num) (by norm_num)⟩

/-- C5 is false as stated ("net_return identically 0 at every bar"): with
an all-zero signal, `net_ret[0]` is NaN (undefined), not 0, because
`signal.shift(1)` and the bar-0 log return are NaN. -/
theorem C5_counterexample :
    ¬ (∀ t, t < ([100, 110] : List ℝ).length →
        net_ret {} [100, 110] (List.replicate 2 (0 : ℝ)) t = some 0) := by
  intro hall
  have h := hall 0 (by norm_num)
  rw [net_ret_zero] at h
  exact Option.noConfusion h

/-- C5 amended: with positive closes, a positive initial capital and at
least two bars, the all-zero signal gives `net_ret = 0` and
`equity = initial_capital` at every bar `t ≥ 1` (bar 0 is undefined), and
the metrics map is exactly total return 0, Sharpe 0, Sortino 0, max
drawdown 0, per-bar win rate 0 and final equity `initial_capital`. -/
theorem C5_amended_flat_signal (cfg : Config) (closes : List ℝ)
    (idx : Option (List ℚ)) (hC : 0 < cfg.initial_capital)
    (hpos : ∀ x ∈ closes, 0 < x) (hn : 2 ≤ closes.length) :
    (∀ t, t ≠ 0 → t < closes.length →
      net_ret cfg closes (List.replicate closes.length (0 : ℝ)) t = some 0) ∧
    (∀ t, t ≠ 0 → t < closes.length →
      equity_curve cfg closes (List.replicate closes.length (0 : ℝ)) t =
        some cfg.initial_capital) ∧
    calculate_metrics cfg closes (List.replicate closes.length (0 : ℝ)) idx =
      [("Total Return", some 0),
       ("Sharpe Ratio", some 0),
       ("Sortino Ratio", some 0),
       ("Max Drawdown", some 0),
       ("Win Rate (Bars)", some 0),
       ("Equity Final", some cfg.initial_capital)] := by
  have hall := @clean_ret_flat_zero cfg closes hpos
  refine ⟨fun t ht htn => net_ret_flat hpos ht htn,
    fun t ht htn => equity_flat hpos ht htn, ?_⟩
  rw [calculate_metrics_eq_of_ne_nil (clean_ret_flat_ne_nil hpos hn),
    total_return_flat hC hpos hn,
    sharpe_ratio_all_zero idx hall,
    sortino_ratio_zero_of_no_downside idx (downside_ret_nil_of_all_zero hall),
    max_dd_flat hpos hn,
    win_rate_flat hall,
    equity_flat hpos (show closes.length - 1 ≠ 0 by omega) (by omega)]

/-- C5 amended witness: the two-bar constant-price run with the all-zero
signal. -/
theorem C5_amended_flat_signal_witness :
    0 < ({} : Config).initial_capital ∧
    (∀ x ∈ ([100, 110] : List ℝ), 0 < x) ∧
    calculate_metrics {} [100, 110]
        (List.replicate ([100, 110] : List ℝ).length (0 : ℝ)) none =
      [("Total Return", some 0),
       ("Sharpe Ratio", some 0),
       ("Sortino Ratio", some 0),
       ("Max Drawdown", some 0),
       ("Win Rate (Bars)", some 0),
       ("Equity Final", some ({} : Config).initial_capital)] :=
  ⟨by show (0 : ℝ) < 100000; norm_num,
   by norm_num,
   (C5_amended_flat_signal {} [100, 110] none
      (by show (0 : ℝ) < 100000; norm_num) (by norm_num) (by norm_num)).2.2⟩

/-- C8. Cost monotonicity: raising `commission_per_share` and/or
`slippage_bps` leaves bars without turnover bit-identical and can only
lower the net return at bars with positive turnover. -/
theorem C8_cost_monotonic (c₁ c₂ : Config) (closes sig : List ℝ) (t : ℕ)
    (hcomm : c₁.commission ≤ c₂.commission)
    (hslip : c₁.slippage_bps ≤ c₂.slippage_bps)
    (hpos : ∀ x ∈ closes, 0 < x) :
    (trades sig t = 0 → net_ret c₂ closes sig t = net_ret c₁ closes sig t) ∧
    (0 < trades sig t → t < closes.length →
      ∃ a b, net_ret c₁ closes sig t = some a ∧
        net_ret c₂ closes sig t = some b ∧ b ≤ a) := by
  refine ⟨fun htr => net_ret_config_eq_of_no_trade c₁ c₂ closes htr,
    fun htr htn => ?_⟩
  obtain ⟨ht0, a, b, hat, hbt⟩ := trades_pos_elim htr
  have hp := List.get?_eq_get (show t - 1 < closes.length by omega)
  have hc := List.get?_eq_get htn
  have hp0 := get?_pos hpos hp
  have hc0 := get?_pos hpos hc
  have h1 : net_ret c₁ closes sig t = _ := net_ret_formula ht0 hbt hp hc hp0 hc0
  have h2 : net_ret c₂ closes sig t = _ := net_ret_formula ht0 hbt hp hc hp0 hc0
  refine ⟨_, _, h1, h2, ?_⟩
  apply sub_le_sub_left
  apply mul_le_mul_of_nonneg_left ?_ (le_of_lt htr)
  exact add_le_add ((div_le_div_right hc0).mpr hcomm) (slippage_pct_mono hslip)

/-- C8 witness: default costs versus a configuration with commission 0.01
and slippage 2 bps, on a flip from long to short at bar 1. -/
theorem C8_cost_monotonic_witness :
    trades [(1 : ℝ), -1] 0 = 0 ∧
    net_ret (⟨100000, 0.01, 2⟩ : Config) [100, 110] [(1 : ℝ), -1] 0 =
      net_ret ({} : Config) [100, 110] [(1 : ℝ), -1] 0 ∧
    0 < trades [(1 : ℝ), -1] 1 ∧
    (∃ a b, net_ret ({} : Config) [100, 110] [(1 : ℝ), -1] 1 = some a ∧
      net_ret (⟨100000, 0.01, 2⟩ : Config) [100, 110] [(1 : ℝ), -1] 1 = some b ∧
      b ≤ a) := by
  have hcomm : ({} : Config).commission ≤ (⟨100000, 0.01, 2⟩ : Config).commission := by
    show (0.0035 : ℝ) ≤ 0.01
    norm_num
  have hslip : ({} : Config).slippage_bps ≤ (⟨100000, 0.01, 2⟩ : Config).slippage_bps := by
    show (1 : ℝ) ≤ 2
    norm_num
  have hpos : ∀ x ∈ ([100, 110] : List ℝ), 0 < x := by norm_num
  have htr : 0 < trades [(1 : ℝ), -1] 1 := by
    have h2 : trades [(1 : ℝ), -1] 1 = 2 := by
      unfold trades
      norm_num
    rw [h2]
    norm_num
  have h := C8_cost_monotonic {} ⟨100000, 0.01, 2⟩ [100, 110] [(1 : ℝ), -1] 1
    hcomm hslip hpos
  have h0 := C8_cost_monotonic {} ⟨100000, 0.01, 2⟩ [100, 110] [(1 : ℝ), -1] 0
    hcomm hslip hpos
  exact ⟨rfl, h0.1 rfl, htr, h.2 htr (by norm_num)⟩

/-- C9. Drawdown bound: with positive initial capital and at least one
defined net return, the "Max Drawdown" metric is a defined value in the
half-open interval (-1, 0]. -/
theorem C9_drawdown_bound (cfg : Config) (closes sig : List ℝ)
    (idx : Option (List ℚ)) (hC : 0 < cfg.initial_capital)
    (hne : clean_ret cfg closes sig ≠ []) :
    ∃ m, max_dd cfg closes sig = some m ∧ -1 < m ∧ m ≤ 0 ∧
      ("Max Drawdown", some m) ∈ calculate_metrics cfg closes sig idx := by
  obtain ⟨t, htn, v, hv⟩ := clean_ret_ne_nil_elim hne
  obtain ⟨d, hd⟩ := drawdown_isSome_of_net hv
  obtain ⟨r, hr⟩ := min_defined_isSome hd (closes.length - 1) (by omega)
  have hmdd : max_dd cfg closes sig = some r := by
    unfold max_dd
    rw [if_neg (by omega), hr]
  have hbound : -1 < r ∧ r ≤ 0 := by
    refine @min_defined_pred (fun y => -1 < y ∧ y ≤ 0) _ ?_ ?_
      (closes.length - 1) r hr
    · intro a b ha hb
      constructor
      · exact lt_min ha.1 hb.1
      · exact le_trans (min_le_left a b) ha.2
    · intro i x hx
      exact drawdown_bound hC hx
  refine ⟨r, hmdd, hbound.1, hbound.2, ?_⟩
  rw [calculate_metrics_eq_of_ne_nil hne, ← hmdd]
  simp

/-- C9 witness: the two-bar up-move with a long signal. -/
theorem C9_drawdown_bound_witness :
    0 < ({} : Config).initial_capital ∧
    clean_ret {} [100, 110] [1, 1] ≠ [] ∧
    (∃ m, max_dd ({} : Config) [100, 110] [1, 1] = some m ∧ -1 < m ∧ m ≤ 0 ∧
      ("Max Drawdown", some m) ∈ calculate_metrics {} [100, 110] [1, 1] none) :=
  ⟨by show (0 : ℝ) < 100000; norm_num, clean_ne_ex1,
   C9_drawdown_bound {} [100, 110] [1, 1] none
     (by show (0 : ℝ) < 100000; norm_num) clean_ne_ex1⟩

/-- C10. Single-downside edge case: with a non-empty defined net-return
series whose downside subset has exactly one element, the sample standard
deviation of the downside is undefined (ddof = 1 on one observation), the
`std_down > 0` guard is falsy, and the Sortino ratio is the 0 sentinel. -/
theorem C10_single_downside_sortino (cfg : Config) (closes sig : List ℝ)
    (idx : Option (List ℚ)) (hne : clean_ret cfg closes sig ≠ [])
    (hd : (downside_ret cfg closes sig).length = 1) :
    sortino_ratio cfg closes sig idx = 0 ∧
    ("Sortino Ratio", some 0) ∈ calculate_metrics cfg closes sig idx := by
  have hstd : series_std (downside_ret cfg closes sig) = none := by
    unfold series_std
    rw [hd, if_pos (by norm_num)]
  have hs : sortino_ratio cfg closes sig idx = 0 := by
    unfold sortino_ratio
    rw [hstd]
  refine ⟨hs, ?_⟩
  rw [calculate_metrics_eq_of_ne_nil hne, hs]
  simp

/-- C10 witness: a two-bar down-move with a long signal gives exactly one
(negative) defined net return, hence a one-element downside set. -/
theorem C10_single_downside_sortino_witness :
    clean_ret {} [100, 50] [1, 1] ≠ [] ∧
    (downside_ret ({} : Config) [100, 50] [1, 1]).length = 1 ∧
    sortino_ratio ({} : Config) [100, 50] [1, 1] none = 0 ∧
    ("Sortino Ratio", some 0) ∈ calculate_metrics {} [100, 50] [1, 1] none := by
  have hv : net_ret ({} : Config) [100, 50] [(1 : ℝ), 1] 1 =
      some (Real.log (50 / 100)) := by
    have h := @net_ret_formula {} [100, 50] [(1 : ℝ), 1] 1 1 100 50
      one_ne_zero rfl rfl rfl (by norm_num) (by norm_num)
    rw [h]
    norm_num [trades]
  have hclean : clean_ret ({} : Config) [100, 50] [(1 : ℝ), 1] =
      [Real.log (50 / 100)] := by
    unfold clean_ret
    rw [show List.range ([100, 50] : List ℝ).length = [0, 1] from rfl]
    simp [List.filterMap_cons, net_ret_zero, hv]
  have hneg : Real.log ((50 : ℝ) / 100) < 0 := by
    rw [show (50 : ℝ) / 100 = 1 / 2 by norm_num]
    exact Real.log_neg (by norm_num) (by norm_num)
  have hdown : downside_ret ({} : Config) [100, 50] [(1 : ℝ), 1] =
      [Real.log (50 / 100)] := by
    unfold downside_ret
    rw [hclean]
    simp [hneg]
  have hne := clean_ret_ne_nil (show 1 < ([100, 50] : List ℝ).length by norm_num) hv
  have hd1 : (downside_ret ({} : Config) [100, 50] [(1 : ℝ), 1]).length = 1 := by
    rw [hdown]
    rfl
  have h := C10_single_downside_sortino {} [100, 50] [1, 1] none hne hd1
  exact ⟨hne, hd1, h.1, h.2⟩

/-! ### Median lemmas for frequency inference -/

theorem insert_sorted_replicate (k : ℕ) (d : ℚ) :
    insert_sorted d (List.replicate k d) = List.replicate (k + 1) d := by
  cases k with
  | zero => rfl
  | succ n =>
    rw [List.replicate_succ]
    unfold insert_sorted
    rw [if_pos (le_refl d)]
    simp [List.replicate_succ]

theorem sort_q_replicate (k : ℕ) (d : ℚ) :
    sort_q (List.replicate k d) = List.replicate k d := by
  induction k with
  | zero => rfl
  | succ n ih =>
    rw [List.replicate_succ]
    unfold sort_q
    rw [List.foldr_cons,
      show List.foldr insert_sorted [] (List.replicate n d) =
        sort_q (List.replicate n d) from rfl,
      ih, insert_sorted_replicate]
    simp [List.replicate_succ]

theorem replicate_getD {k i : ℕ} (d : ℚ) (h : i < k) :
    (List.replicate k d).getD i 0 = d := by
  induction k generalizing i with
  | zero => omega
  | succ n ih =>
    rw [List.replicate_succ]
    cases i with
    | zero => rfl
    | succ j =>
      simp only [List.getD_cons_succ]
      exact ih (by omega)

theorem median_q_replicate {k : ℕ} (d : ℚ) (hk : k ≠ 0) :
    median_q (List.replicate k d) = some d := by
  unfold median_q
  rw [List.length_replicate, if_neg hk, sort_q_replicate]
  by_cases hodd : k % 2 = 1
  · rw [if_pos hodd, replicate_getD d (by omega)]
  · rw [if_neg hodd, replicate_getD d (by omega), replicate_getD d (by omega),
      show (d + d) / 2 = d by ring]

/-- C6. Frequency inference: with a timestamp index, the annualization
factor is 252*390 when the median consecutive spacing (minutes) is below
5, 252*13 when it is at least 5 and below 60, and 252 when it is 60 or
more; without a timestamp index it is 252. In particular a constant
spacing d classifies by d itself. -/
theorem C6_frequency_inference :
    (∀ ts m, median_q (diffs_q ts) = some m →
      ((m < 5 → ann_factor (some ts) = 252 * 390) ∧
       (5 ≤ m → m < 60 → ann_factor (some ts) = 252 * 13) ∧
       (60 ≤ m → ann_factor (some ts) = 252))) ∧
    ann_factor none = 252 ∧
    (∀ ts d k, diffs_q ts = List.replicate k d → k ≠ 0 →
      ann_factor (some ts) =
        if d < 5 then 252 * 390 else if d < 60 then 252 * 13 else 252) := by
  have hcls : ∀ ts m, median_q (diffs_q ts) = some m →
      ann_factor (some ts) =
        if m < 5 then 252 * 390 else if m < 60 then 252 * 13 else 252 := by
    intro ts m hm
    simp only [ann_factor, hm]
  refine ⟨?_, rfl, ?_⟩
  · intro ts m hm
    refine ⟨fun h5 => ?_, fun h5 h60 => ?_, fun h60 => ?_⟩
    · rw [hcls ts m hm, if_pos h5]
    · rw [hcls ts m hm, if_neg (not_lt.mpr h5), if_pos h60]
    · rw [hcls ts m hm, if_neg (not_lt.mpr (le_trans (by norm_num) h60)),
        if_neg (not_lt.mpr h60)]
  · intro ts d k hrep hk
    exact hcls ts d (by rw [hrep]; exact median_q_replicate d hk)

/-- C6 witness: 1-minute spacing gives 252*390, 30-minute spacing gives
252*13, daily (1440-minute) spacing gives 252, and no index gives 252. -/
theorem C6_frequency_inference_witness :
    median_q (diffs_q [0, 1, 2]) = some 1 ∧
    ann_factor (some [0, 1, 2]) = 252 * 390 ∧
    ann_factor none = 252 ∧
    diffs_q [0, 30, 60] = List.replicate 2 30 ∧
    ann_factor (some [0, 30, 60]) = 252 * 13 ∧
    ann_factor (some [0, 1440, 2880]) = 252 := by
  have h := C6_frequency_inference
  have hd1 : diffs_q [(0 : ℚ), 1, 2] = List.replicate 2 1 := by
    rw [show List.replicate 2 (1 : ℚ) = [1, 1] from rfl]
    norm_num [diffs_q]
  have hd30 : diffs_q [(0 : ℚ), 30, 60] = List.replicate 2 30 := by
    rw [show List.replicate 2 (30 : ℚ) = [30, 30] from rfl]
    norm_num [diffs_q]
  have hd1440 : diffs_q [(0 : ℚ), 1440, 2880] = List.replicate 2 1440 := by
    rw [show List.replicate 2 (1440 : ℚ) = [1440, 1440] from rfl]
    norm_num [diffs_q]
  have hm : median_q (diffs_q [(0 : ℚ), 1, 2]) = some 1 := by
    rw [hd1]
    exact median_q_replicate 1 (by norm_num)
  refine ⟨hm, (h.1 [0, 1, 2] 1 hm).1 (by norm_num), h.2.1, hd30, ?_, ?_⟩
  · rw [h.2.2 [0, 30, 60] 30 2 hd30 (by norm_num)]
    norm_num
  · rw [h.2.2 [0, 1440, 2880] 1440 2 hd1440 (by norm_num)]
    norm_num
